import Mathlib

/-!
Verification of the MultiView-Bench active-evidence-aggregation agent.

This file shallowly embeds the core of the repository:
  * `src/agent/belief_state.py` — the per-axis Dirichlet belief estimator
    (`BeliefState.__init__`, `_wilson_neff`, `_entropy_neff`, `update`,
    `get_posterior`, `get_decision`, `should_stop`);
  * `src/agent/verifier.py` — the answer parsers (`parse_answer`,
    `parse_answer_json`);
  * `src/agent/agent_main.py` — the agent control loop (`Agent.run`).

Python floats are modelled as real numbers, Python ints as naturals /
integers, dictionaries keyed by the fixed axis and sign alphabets as total
functions out of the corresponding finite inductive types, and the external
model services (planner LLM, perception VLM, rendering environment, jitter
randomness, and the standard-library JSON decoder) as oracle functions
supplied to the run.
-/

namespace MultiView

/-- The three spatial axes, `['X','Y','Z']` in the source. -/
inductive Axis : Type
  | X
  | Y
  | Z
deriving DecidableEq, Fintype

/-- The three sign labels, `['+','0','-']` in the source. -/
inductive Sign : Type
  | plus
  | zero
  | minus
deriving DecidableEq, Fintype

/-- The fixed axis iteration order used by all loops in `belief_state.py`. -/
def axes : List Axis := [Axis.X, Axis.Y, Axis.Z]

/-- The fixed sign iteration order `['+','0','-']` used in `belief_state.py`. -/
def signs : List Sign := [Sign.plus, Sign.zero, Sign.minus]

/-- One axis's vote tally `{'+': k, '0': k, '-': k}` (values are Python ints,
accumulated from votes, hence naturals). -/
def Tally : Type := Sign → ℕ

/-- `n = kplus + kzero + kminus` (also `sum(counts.values())` in `update`). -/
def Tally.total (t : Tally) : ℕ := t Sign.plus + t Sign.zero + t Sign.minus

/-- `kmax = max(kplus, kzero, kminus)` in `_wilson_neff`. -/
def Tally.kmax (t : Tally) : ℕ := max (t Sign.plus) (max (t Sign.zero) (t Sign.minus))

/-- The argument of `BeliefState.update`:
`{'X': {'+':k,'0':k,'-':k}, 'Y': ..., 'Z': ...}`. -/
def AxisCounts : Type := Axis → Tally

/-- The belief state of `belief_state.py`: Dirichlet pseudo-counts
`alpha[A][s]` plus the three constructor-time configuration fields. -/
structure BeliefState : Type where
  alpha : Axis → Sign → ℝ
  lam : ℝ
  gamma : ℝ
  method : List Char

/-- `BeliefState.__init__(lam, gamma, method)`:
`alpha = {A: {'+': lam, '0': lam, '-': lam} for A in ['X','Y','Z']}`. -/
def BeliefState.init (lam gamma : ℝ) (method : List Char) : BeliefState :=
  ⟨fun _ _ => lam, lam, gamma, method⟩

/-- The Wilson lower bound computed inside `_wilson_neff`:
`lb = (phat + z*z/(2*n) - z*sqrt(phat*(1-phat)/n + z*z/(4*n*n))) / (1 + z*z/n)`
with `z = 1.96`. -/
noncomputable def wilsonLB (n phat : ℝ) : ℝ :=
  let z : ℝ := 1.96
  (phat + z * z / (2 * n) - z * Real.sqrt (phat * (1 - phat) / n + z * z / (4 * n * n))) /
    (1 + z * z / n)

/-- `BeliefState._wilson_neff(counts)`: returns `(neff, confidence)`.
`confidence = max(0.0, (max(lb, 1/3) - 1/3)/(2/3)) ** gamma`, `neff = n * confidence`;
`(0.0, 0.0)` when `n == 0`. -/
noncomputable def wilson_neff (gamma : ℝ) (t : Tally) : ℝ × ℝ :=
  if t.total = 0 then (0, 0)
  else
    let n : ℝ := (t.total : ℝ)
    let phat : ℝ := (t.kmax : ℝ) / n
    let lb : ℝ := wilsonLB n phat
    let confidence : ℝ := (max 0 ((max lb (1 / 3) - 1 / 3) / (2 / 3))) ^ gamma
    (n * confidence, confidence)

/-- `BeliefState._entropy_neff(counts)`: Laplace-smoothed proportions,
`confidence = (1 - H/Hmax) ** gamma`, `neff = n * confidence`;
`(0.0, 0.0)` when `n == 0`.  The generator-sum over `p = [p+, p0, p-]` is
unrolled over the fixed sign order. -/
noncomputable def entropy_neff (lam gamma : ℝ) (t : Tally) : ℝ × ℝ :=
  if t.total = 0 then (0, 0)
  else
    let n : ℝ := (t.total : ℝ)
    let p : Sign → ℝ := fun s => ((t s : ℝ) + lam) / (n + 3 * lam)
    let H : ℝ := -(p Sign.plus * Real.log (p Sign.plus) +
        p Sign.zero * Real.log (p Sign.zero) +
        p Sign.minus * Real.log (p Sign.minus))
    let Hmax : ℝ := Real.log 3
    let confidence : ℝ := (1 - H / Hmax) ^ gamma
    (n * confidence, confidence)

/-- The per-axis branch of `update`:
`if self.method == 'wilson': _wilson_neff(counts) else: _entropy_neff(counts)`. -/
noncomputable def BeliefState.neffConf (st : BeliefState) (t : Tally) : ℝ × ℝ :=
  if st.method = ("wilson".data) then wilson_neff st.gamma t else entropy_neff st.lam st.gamma t

/-- `BeliefState.update(axis_counts)`: for each axis, when `n > 0 and neff > 0`,
add `neff * p_hat[s]` with `p_hat[s] = (counts[s] + lam)/(n + 3*lam)` to
`alpha[A][s]`; returns the updated state together with the per-axis
`confidence_scores`. -/
noncomputable def BeliefState.update (st : BeliefState) (axis_counts : AxisCounts) :
    BeliefState × (Axis → ℝ) :=
  (⟨fun A s =>
      let nc := st.neffConf (axis_counts A)
      let n : ℕ := (axis_counts A).total
      if 0 < n ∧ 0 < nc.1 then
        st.alpha A s + nc.1 * (((axis_counts A s : ℝ) + st.lam) / ((n : ℝ) + 3 * st.lam))
      else st.alpha A s,
    st.lam, st.gamma, st.method⟩,
   fun A => (st.neffConf (axis_counts A)).2)

/-- Pseudo-count mass of one axis, `sum(self.alpha[A].values())`. -/
def BeliefState.alphaSum (st : BeliefState) (A : Axis) : ℝ :=
  st.alpha A Sign.plus + st.alpha A Sign.zero + st.alpha A Sign.minus

/-- `BeliefState.get_posterior()`: `post[A][s] = alpha[A][s] / ssum`. -/
noncomputable def BeliefState.get_posterior (st : BeliefState) : Axis → Sign → ℝ :=
  fun A s => st.alpha A s / st.alphaSum A

/-- Python's `max(probs.items(), key=lambda x: x[1])` over the insertion order
`['+','0','-']`: scan left to right starting from the `'+'` item, replacing
the current best only when the new key is strictly greater, hence ties keep
the earliest sign.  The two-step scan is unrolled into nested conditionals
(first comparing `'0'` against the best `'+'`, then `'-'` against the
resulting best). -/
noncomputable def argmaxSign (p : Sign → ℝ) : Sign × ℝ :=
  if p Sign.zero > p Sign.plus then
    (if p Sign.minus > p Sign.zero then (Sign.minus, p Sign.minus)
     else (Sign.zero, p Sign.zero))
  else
    (if p Sign.minus > p Sign.plus then (Sign.minus, p Sign.minus)
     else (Sign.plus, p Sign.plus))

/-- `BeliefState.get_decision()`: per axis the top sign and its posterior. -/
noncomputable def BeliefState.get_decision (st : BeliefState) :
    (Axis → Sign) × (Axis → ℝ) :=
  (fun A => (argmaxSign (st.get_posterior A)).1, fun A => (argmaxSign (st.get_posterior A)).2)

/-- `BeliefState.should_stop(tau, kappa_min)`: `ok` starts `True` and is set to
`False` for every axis failing `top_p >= tau and sum(alpha[A].values()) >= kappa_min`. -/
noncomputable def BeliefState.should_stop (st : BeliefState) (tau kappa_min : ℝ) :
    Bool × (Axis → Sign) :=
  let dec := st.get_decision
  let ok : Bool := axes.foldl
    (fun ok A => if ¬(dec.2 A ≥ tau ∧ st.alphaSum A ≥ kappa_min) then false else ok) true
  (ok, dec.1)

/-- A sequence of `update` calls applied in order (confidence outputs dropped). -/
noncomputable def BeliefState.applyUpdates (st : BeliefState) (l : List AxisCounts) :
    BeliefState :=
  l.foldl (fun s c => (s.update c).1) st

/-! ### The answer parsers of `src/agent/verifier.py` -/

/-- The whitespace class of Python's `str.strip()` and of `\s`. -/
def isPySpace (c : Char) : Bool :=
  c == ' ' || c == '\t' || c == '\n' || c == '\r' || c == Char.ofNat 11 || c == Char.ofNat 12

/-- Python `str.strip()`: drop whitespace from both ends. -/
def trimChars (l : List Char) : List Char :=
  ((l.dropWhile isPySpace).reverse.dropWhile isPySpace).reverse

/-- Split a character list at the first occurrence of `pat`, returning the
text before and after the occurrence, or `none` when `pat` never occurs. -/
def splitFirst (pat : List Char) : List Char → Option (List Char × List Char)
  | [] => if pat.isEmpty then some ([], []) else none
  | c :: rest =>
    if pat.isPrefixOf (c :: rest) then some ([], (c :: rest).drop pat.length)
    else
      match splitFirst pat rest with
      | some pr => some (c :: pr.1, pr.2)
      | none => none

/-- The delimiter extraction shared by both parsers: the content captured by
`re.search` between the first `<answer>` and the nearest following
`</answer>` (the lazy group `(.*?)`), or `none` when the tags are absent.
Leading and trailing whitespace of the group is left in place, since both
call sites strip the content afterwards. -/
def extractAnswer (s : List Char) : Option (List Char) :=
  match splitFirst ("<answer>".data) s with
  | none => none
  | some pr =>
    match splitFirst ("</answer>".data) pr.2 with
    | none => none
    | some qr => some qr.1

/-- Step 2 of `parse_answer`: `if content.startswith("(") and content.endswith(")"):
content = content[1:-1]`. -/
def stripParens (l : List Char) : List Char :=
  if l.head? = some '(' ∧ l.getLast? = some ')' then (l.drop 1).dropLast else l

/-- Python `content.split(",")`: split at every comma, keeping empty pieces. -/
def splitOnComma : List Char → List (List Char)
  | [] => [[]]
  | c :: rest =>
    let r := splitOnComma rest
    if c = ',' then [] :: r
    else
      match r with
      | h :: t => (c :: h) :: t
      | [] => [[c]]

/-- The sign-character alternation `([+\-0])` of the token pattern. -/
def signOfChar : Char → Option Sign
  | '+' => some Sign.plus
  | '0' => some Sign.zero
  | '-' => some Sign.minus
  | _ => none

/-- The axis-letter alternation `([XYZ])` of the token pattern. -/
def axisOfChar : Char → Option Axis
  | 'X' => some Axis.X
  | 'Y' => some Axis.Y
  | 'Z' => some Axis.Z
  | _ => none

/-- `re.match(r"^([+\-0])([XYZ])$", part)`: exactly one sign character
followed by exactly one axis letter. -/
def matchToken : List Char → Option (Sign × Axis)
  | [sc, ac] =>
    match signOfChar sc, axisOfChar ac with
    | some sg, some ax => some (sg, ax)
    | _, _ => none
  | _ => none

/-- `parse_answer(response)` of `verifier.py`: extract the tagged region (or
fall back to the whole stripped text), strip one enclosing parenthesis pair,
split on commas, keep the stripped nonempty parts, and accumulate the
matching `sign axis` tokens into a mapping (later tokens overwrite earlier
ones, as Python dict assignment does).  Axes not mentioned stay `none`. -/
def parse_answer (response : List Char) : Axis → Option Sign :=
  let content0 : List Char :=
    match extractAnswer response with
    | some c => c
    | none => trimChars response
  let content1 : List Char := trimChars content0
  let content2 : List Char := stripParens content1
  let parts : List (List Char) :=
    ((splitOnComma content2).map trimChars).filter (fun p => ¬p.isEmpty)
  parts.foldl
    (fun result part =>
      match matchToken part with
      | some sa => fun A => if A = sa.2 then some sa.1 else result A
      | none => result)
    (fun _ => none)

/-- The decoded action plan `{"action": ..., "view": {"az": ..., "el": ...},
"axis": ...}` that `Agent.run` reads off the object returned by
`parse_answer_json`.  `view` is `none` when the key is absent (the planner
omits it when stopping); the `axis` field is carried opaquely to the
perception prompt. -/
structure Plan : Type where
  action : List Char
  view : Option (ℝ × ℝ)
  axis : List Char

/-- `parse_answer_json(llm_response)` of `verifier.py`.  The standard-library
`json.loads` (external to the repository) is abstracted as the oracle
`jloads`, which returns `none` exactly when the text is not valid JSON for a
plan object (`json.JSONDecodeError`).  The function errors when the
`<answer>` delimiters are absent or when `jloads` rejects the stripped
content; there is no fall-back to the raw text. -/
def parse_answer_json (jloads : List Char → Option Plan) (s : List Char) :
    Except (List Char) Plan :=
  match extractAnswer s with
  | none => Except.error ("No answer tags found in response".data)
  | some content =>
    match jloads (trimChars content) with
    | some v => Except.ok v
    | none => Except.error ("Invalid JSON in answer tags".data)

/-! ### The agent control loop of `src/agent/agent_main.py` -/

/-- One record appended to `self.history` per completed step. -/
structure HistoryEntry : Type where
  step : ℕ
  view : ℝ × ℝ
  answer : Axis → Option Sign
  confidence : Axis → ℝ

/-- The mutable attributes of `Agent` relevant to `run`: the belief state,
the history list, and the step counter (initialized to 1 in `__init__`). -/
structure AgentState : Type where
  belief : BeliefState
  history : List HistoryEntry
  steps : ℕ

/-- `Agent.__init__`: a fresh `BeliefState()` (defaults `lam = 1.0`,
`gamma = 1.0`, `method = 'wilson'`), empty history, `steps = 1`. -/
def AgentState.init : AgentState :=
  ⟨BeliefState.init 1 1 ("wilson".data), [], 1⟩

/-- The external collaborators of one run, modelled as oracles:
`jloads` stands for the standard-library JSON decoder, `planner` for the
LLM response of the proposal call made at a given step count, `offsets` for
the randomized `generate_jitter_offsets` draw of that step, `capture` for
`env.capture`, and `vlm` for the perception response given an image path and
the focus-axis string. -/
structure Oracles : Type where
  jloads : List Char → Option Plan
  planner : ℕ → List Char
  offsets : ℕ → List (ℝ × ℝ)
  capture : ℝ → ℝ → List Char
  vlm : List Char → List Char → List Char

/-- The VOTE phase inner loop of `Agent.run`: for each offset `(daz, del_)`,
capture an image at `(az + daz, el + del_)`, query the perception model,
decode the sign tuple, increment the per-axis per-sign tallies for the axes
present, and remember the decoded answer of the `(0, 0)` offset as the
canonical `view_ans`. -/
noncomputable def voteLoop (o : Oracles) (az el : ℝ) (focus : List Char) :
    List (ℝ × ℝ) → AxisCounts → Option (Axis → Option Sign) →
      AxisCounts × Option (Axis → Option Sign)
  | [], counts, va => (counts, va)
  | (daz, del) :: rest, counts, va =>
    let labels := parse_answer (o.vlm (o.capture (az + daz) (el + del)) focus)
    voteLoop o az el focus rest
      (fun A s => counts A s + (if labels A = some s then 1 else 0))
      (if daz = 0 ∧ del = 0 then some labels else va)

/-- The VOTE/UPDATE body of one successful CAPTURE iteration of `Agent.run`:
tally the perception votes over `offsets + [(0, 0)]`, update the belief,
append the `HistoryEntry`, and increment `steps`. -/
noncomputable def captureStep (o : Oracles) (az el : ℝ) (focus : List Char)
    (st : AgentState) : AgentState :=
  let res := voteLoop o az el focus (o.offsets st.steps ++ [(0, 0)]) (fun _ _ => 0) none
  let upd := st.belief.update res.1
  ⟨upd.1,
   st.history ++ [⟨st.steps, (az, el), res.2.getD (fun _ => none), upd.2⟩],
   st.steps + 1⟩

/-- The `while self.steps < max_steps` loop of `Agent.run`, with the
remaining iteration budget `max_steps - steps` as fuel (each iteration
increments `steps` by exactly one, so the fuel decreases in lockstep).  A
planner response that fails to decode raises, modelled as `Except.error`
carrying the agent state exactly as it was when the exception was thrown; a
decoded `STOP` action breaks out of the loop; otherwise the CAPTURE body
runs and the loop breaks early when `should_stop` fires. -/
noncomputable def runLoop (o : Oracles) (tau kappa : ℝ) :
    ℕ → AgentState → Except AgentState AgentState
  | 0, st => Except.ok st
  | fuel + 1, st =>
    match parse_answer_json o.jloads (o.planner st.steps) with
    | Except.error _ => Except.error st
    | Except.ok plan =>
      if plan.action = ("STOP".data) then Except.ok st
      else
        match plan.view with
        | none => Except.error st
        | some ae =>
          let st2 := captureStep o ae.1 ae.2 plan.axis st
          if (st2.belief.should_stop tau kappa).1 = true then Except.ok st2
          else runLoop o tau kappa fuel st2

/-- The single character the source concatenates for each decided sign. -/
def signChar : Sign → Char
  | Sign.plus => '+'
  | Sign.zero => '0'
  | Sign.minus => '-'

/-- The final answer string built on termination of `Agent.run`:
`f"<answer>({decision['X']+'X'}, {decision['Y']+'Y'}, {decision['Z']+'Z'})</answer>"`. -/
def formatAnswer (d : Axis → Sign) : List Char :=
  ("<answer>(".data ++ [signChar (d Axis.X)] ++ "X, ".data ++ [signChar (d Axis.Y)]
    ++ "Y, ".data ++ [signChar (d Axis.Z)] ++ "Z)</answer>".data)

/-- `Agent.run(central, target, env, jitter_size, max_steps)`: run the loop
from the freshly initialized agent, then format `get_decision` into the
tagged answer.  On success we also surface the terminal agent state (the
attributes of the Python object after the call); on an exception the state
at the raise point is carried in the error. -/
noncomputable def Agent.run (o : Oracles) (tau kappa : ℝ) (max_steps : ℕ) :
    Except AgentState (List Char × (Axis → ℝ) × AgentState) :=
  match runLoop o tau kappa (max_steps - 1) AgentState.init with
  | Except.error st => Except.error st
  | Except.ok st =>
    let dec := st.belief.get_decision
    Except.ok (formatAnswer dec.1, dec.2, st)

/-- The top posterior probability of one axis: the maximum that Python's
`max(probs.items(), key=lambda x: x[1])` ranges over. -/
noncomputable def BeliefState.topPost (st : BeliefState) (A : Axis) : ℝ :=
  max (st.get_posterior A Sign.plus)
    (max (st.get_posterior A Sign.zero) (st.get_posterior A Sign.minus))

/-! ### Concrete fixtures used for closed-form instances -/

/-- A concrete CAPTURE action plan. -/
noncomputable def planC : Plan := ⟨"CAPTURE".data, some (10, 20), "X".data⟩

/-- Oracles whose planner response always decodes to the CAPTURE plan `planC`. -/
noncomputable def oCap : Oracles :=
  ⟨fun _ => some planC, fun _ => "<answer>A</answer>".data, fun _ => [],
   fun _ _ => [], fun _ _ => "(+X, +Y, +Z)".data⟩

/-- A concrete STOP action plan. -/
def planS : Plan := ⟨"STOP".data, none, []⟩

/-- Oracles whose planner response always decodes to the STOP plan `planS`. -/
def oStop : Oracles :=
  ⟨fun _ => some planS, fun _ => "<answer>S</answer>".data, fun _ => [],
   fun _ _ => [], fun _ _ => "(+X)".data⟩

/-- Oracles whose planner response carries no answer tags at all. -/
def oErr : Oracles :=
  ⟨fun _ => none, fun _ => "no tags".data, fun _ => [],
   fun _ _ => [], fun _ _ => "x".data⟩

/-! ## Basic unfolding lemmas -/

lemma update_alpha (st : BeliefState) (c : AxisCounts) (A : Axis) (s : Sign) :
    (st.update c).1.alpha A s =
      if 0 < (c A).total ∧ 0 < (st.neffConf (c A)).1 then
        st.alpha A s + (st.neffConf (c A)).1 *
          (((c A s : ℝ) + st.lam) / (((c A).total : ℝ) + 3 * st.lam))
      else st.alpha A s := rfl

lemma update_conf (st : BeliefState) (c : AxisCounts) (A : Axis) :
    (st.update c).2 A = (st.neffConf (c A)).2 := rfl

lemma update_lam (st : BeliefState) (c : AxisCounts) : (st.update c).1.lam = st.lam := rfl

lemma get_posterior_eq (st : BeliefState) (A : Axis) (s : Sign) :
    st.get_posterior A s = st.alpha A s / st.alphaSum A := rfl

lemma forall_axis {P : Axis → Prop} : (∀ A, P A) ↔ P Axis.X ∧ P Axis.Y ∧ P Axis.Z := by
  constructor
  · intro h; exact ⟨h _, h _, h _⟩
  · rintro ⟨hx, hy, hz⟩ A; cases A <;> assumption

lemma tally_le_total (t : Tally) (s : Sign) : t s ≤ t.total := by
  unfold Tally.total; cases s <;> omega

lemma kmax_le_total (t : Tally) : t.kmax ≤ t.total := by
  unfold Tally.kmax Tally.total; omega

/-! ## Monotonicity of the pseudo-counts (shared by C4 and C5) -/

lemma update_alpha_mono (st : BeliefState) (c : AxisCounts) (A : Axis) (s : Sign)
    (hlam : 0 ≤ st.lam) : st.alpha A s ≤ (st.update c).1.alpha A s := by
  rw [update_alpha]
  by_cases h : 0 < (c A).total ∧ 0 < (st.neffConf (c A)).1
  · rw [if_pos h]
    have hn1 : (1 : ℝ) ≤ (((c A).total : ℕ) : ℝ) := by exact_mod_cast h.1
    have hden : (0 : ℝ) < (((c A).total : ℕ) : ℝ) + 3 * st.lam := by linarith
    have hnum : (0 : ℝ) ≤ ((c A s : ℕ) : ℝ) + st.lam :=
      add_nonneg (Nat.cast_nonneg _) hlam
    exact le_add_of_nonneg_right (mul_nonneg h.2.le (div_nonneg hnum hden.le))
  · rw [if_neg h]

lemma update_alpha_pos (st : BeliefState) (c : AxisCounts) (hlam : 0 ≤ st.lam)
    (h : ∀ A s, 0 < st.alpha A s) : ∀ A s, 0 < (st.update c).1.alpha A s :=
  fun A s => lt_of_lt_of_le (h A s) (update_alpha_mono st c A s hlam)

lemma applyUpdates_lam (l : List AxisCounts) : ∀ st : BeliefState,
    (st.applyUpdates l).lam = st.lam := by
  induction l with
  | nil => intro st; rfl
  | cons c t ih =>
    intro st
    show ((st.update c).1.applyUpdates t).lam = st.lam
    rw [ih, update_lam]

lemma applyUpdates_alpha_pos (l : List AxisCounts) : ∀ st : BeliefState,
    0 ≤ st.lam → (∀ A s, 0 < st.alpha A s) → ∀ A s, 0 < (st.applyUpdates l).alpha A s := by
  induction l with
  | nil => intro st _ h; exact h
  | cons c t ih =>
    intro st hlam h
    show ∀ A s, 0 < ((st.update c).1.applyUpdates t).alpha A s
    exact ih _ (by rw [update_lam]; exact hlam) (update_alpha_pos st c hlam h)

/-! ## Zero-tally behaviour (shared by C8) -/

lemma neffConf_zero (st : BeliefState) (t : Tally) (h : t.total = 0) :
    st.neffConf t = (0, 0) := by
  unfold BeliefState.neffConf wilson_neff entropy_neff
  split_ifs with h1 <;> rfl

lemma update_alpha_zero_tally (st : BeliefState) (c : AxisCounts) (A : Axis)
    (h : (c A).total = 0) : (st.update c).1.alpha A = st.alpha A := by
  funext s
  rw [update_alpha, if_neg]
  rintro ⟨h1, _⟩
  omega

/-! ## Claims about the parsers and simple algebra -/

/-- C9: encoding a full decision mapping into the tagged string
`<answer>(sX, sY, sZ)</answer>` exactly as `Agent.run` does and decoding it
with `parse_answer` recovers the original mapping; the same sign tuple
without the `<answer>` tags decodes identically via the whole-text fallback;
and axes omitted from the text (here `Y`) are simply absent from the result. -/
theorem C9_roundtrip :
    (∀ d : Axis → Sign, parse_answer (formatAnswer d) = fun A => some (d A)) ∧
    (∀ d : Axis → Sign,
      parse_answer ("(".data ++ [signChar (d Axis.X)] ++ "X, ".data ++ [signChar (d Axis.Y)]
          ++ "Y, ".data ++ [signChar (d Axis.Z)] ++ "Z)".data) = fun A => some (d A)) ∧
    (∀ s1 s2 : Sign,
      parse_answer ("(".data ++ [signChar s1] ++ "X, ".data ++ [signChar s2] ++ "Z)".data) =
        fun A => if A = Axis.X then some s1 else if A = Axis.Z then some s2 else none) :=
  ⟨by decide, by decide, by decide⟩

/-- C4: `update` never decreases any pseudo-count `alpha[A][s]` (each added
term `n_eff * p_hat_s` is non-negative once the prior weight `lam` is
non-negative); in the embedding the query operations `get_posterior`,
`get_decision` and `should_stop` are pure functions of the state and return
no modified state at all. -/
theorem C4_pseudo_counts_monotone (st : BeliefState) (c : AxisCounts) (A : Axis) (s : Sign)
    (hlam : 0 ≤ st.lam) : st.alpha A s ≤ (st.update c).1.alpha A s :=
  update_alpha_mono st c A s hlam

theorem C4_pseudo_counts_monotone_witness :
    (BeliefState.init 1 1 ("wilson".data)).alpha Axis.X Sign.plus ≤
      ((BeliefState.init 1 1 ("wilson".data)).update (fun _ _ => 2)).1.alpha Axis.X Sign.plus :=
  C4_pseudo_counts_monotone _ _ _ _ (by norm_num [BeliefState.init])

/-- C8: an all-zero tally for an axis leaves that axis's pseudo-counts
exactly unchanged and yields confidence 0 for that axis, and any number of
repeated updates whose tally is all-zero on that axis still leaves its
pseudo-counts unchanged. -/
theorem C8_zero_evidence (st : BeliefState) (c : AxisCounts) (A : Axis)
    (h : ∀ s, c A s = 0) :
    ((st.update c).1.alpha A = st.alpha A ∧ (st.update c).2 A = 0) ∧
    (∀ l : List AxisCounts, (∀ cc ∈ l, ∀ s, cc A s = 0) →
      (st.applyUpdates l).alpha A = st.alpha A) := by
  have htot : ∀ cc : AxisCounts, (∀ s, cc A s = 0) → (cc A).total = 0 := by
    intro cc hcc; unfold Tally.total; rw [hcc, hcc, hcc]
  constructor
  · constructor
    · exact update_alpha_zero_tally st c A (htot c h)
    · rw [update_conf, neffConf_zero st _ (htot c h)]
  · intro l
    induction l generalizing st with
    | nil => intro _; rfl
    | cons cc t ih =>
      intro hl
      show ((st.update cc).1.applyUpdates t).alpha A = st.alpha A
      rw [ih _ (fun d hd => hl d (List.mem_cons_of_mem _ hd)),
        update_alpha_zero_tally st cc A (htot cc (hl cc (List.mem_cons_self _ _)))]

theorem C8_zero_evidence_witness :
    ((BeliefState.init 1 1 ("wilson".data)).update (fun _ _ => 0)).1.alpha Axis.X =
        (BeliefState.init 1 1 ("wilson".data)).alpha Axis.X ∧
      ((BeliefState.init 1 1 ("wilson".data)).update (fun _ _ => 0)).2 Axis.X = 0 :=
  (C8_zero_evidence (BeliefState.init 1 1 ("wilson".data)) (fun _ _ => 0) Axis.X
    (fun _ => rfl)).1

/-- C5: in every belief state reachable from the initial prior with
`lam > 0` by any sequence of updates (tallies are natural-number counts,
hence non-negative), `get_posterior` yields on each axis three non-negative
values summing exactly to 1. -/
theorem C5_posterior_normalized (lam gamma : ℝ) (m : List Char) (hlam : 0 < lam)
    (l : List AxisCounts) (A : Axis) :
    (∀ s, 0 ≤ ((BeliefState.init lam gamma m).applyUpdates l).get_posterior A s) ∧
    ((BeliefState.init lam gamma m).applyUpdates l).get_posterior A Sign.plus +
        ((BeliefState.init lam gamma m).applyUpdates l).get_posterior A Sign.zero +
        ((BeliefState.init lam gamma m).applyUpdates l).get_posterior A Sign.minus = 1 := by
  have hpos : ∀ B s, 0 < ((BeliefState.init lam gamma m).applyUpdates l).alpha B s :=
    applyUpdates_alpha_pos l _ hlam.le (fun _ _ => hlam)
  have hsum : 0 < ((BeliefState.init lam gamma m).applyUpdates l).alphaSum A := by
    have h1 := hpos A Sign.plus
    have h2 := hpos A Sign.zero
    have h3 := hpos A Sign.minus
    unfold BeliefState.alphaSum
    linarith
  constructor
  · intro s
    rw [get_posterior_eq]
    exact div_nonneg (hpos A s).le hsum.le
  · rw [get_posterior_eq, get_posterior_eq, get_posterior_eq, div_add_div_same,
      div_add_div_same]
    exact div_self (ne_of_gt hsum)

theorem C5_posterior_normalized_witness :
    (∀ s, 0 ≤ ((BeliefState.init 1 1 ("wilson".data)).applyUpdates []).get_posterior Axis.X s) ∧
    ((BeliefState.init 1 1 ("wilson".data)).applyUpdates []).get_posterior Axis.X Sign.plus +
        ((BeliefState.init 1 1 ("wilson".data)).applyUpdates []).get_posterior Axis.X Sign.zero +
        ((BeliefState.init 1 1 ("wilson".data)).applyUpdates []).get_posterior Axis.X Sign.minus
      = 1 :=
  C5_posterior_normalized 1 1 ("wilson".data) (by norm_num) [] Axis.X

/-- C3: `parse_answer_json` fails exactly when the `<answer>` delimiters are
absent or the enclosed (stripped) content is rejected by the JSON decoder;
and whenever the planner response of the current step fails to decode this
way, the run loop raises out of the run carrying the agent state exactly as
it stood at the start of that step — in particular the belief pseudo-counts
are untouched, since no update happens before the decode. -/
theorem C3_format_error_propagates :
    (∀ (jl : List Char → Option Plan) (s : List Char),
      (∃ e, parse_answer_json jl s = Except.error e) ↔
        (extractAnswer s = none ∨
          ∃ c, extractAnswer s = some c ∧ jl (trimChars c) = none)) ∧
    (∀ (o : Oracles) (tau kappa : ℝ) (fuel : ℕ) (st : AgentState),
      (∃ e, parse_answer_json o.jloads (o.planner st.steps) = Except.error e) →
        runLoop o tau kappa (fuel + 1) st = Except.error st) := by
  constructor
  · intro jl s
    unfold parse_answer_json
    cases hex : extractAnswer s with
    | none => simp
    | some c =>
      cases hjl : jl (trimChars c) with
      | none => simp [hjl]
      | some v => simp [hjl]
  · rintro o tau kappa fuel st ⟨e, he⟩
    unfold runLoop
    rw [he]

theorem C3_format_error_propagates_witness :
    runLoop oErr (9 / 10) 10 1 AgentState.init = Except.error AgentState.init :=
  C3_format_error_propagates.2 oErr (9 / 10) 10 0 AgentState.init ⟨_, rfl⟩

/-! ## The first-maximum semantics of the decision scan -/

lemma argmaxSign_snd (p : Sign → ℝ) :
    (argmaxSign p).2 = max (p Sign.plus) (max (p Sign.zero) (p Sign.minus)) := by
  unfold argmaxSign
  by_cases h1 : p Sign.zero > p Sign.plus
  · rw [if_pos h1]
    by_cases h2 : p Sign.minus > p Sign.zero
    · rw [if_pos h2]
      show p Sign.minus = _
      rw [max_eq_right h2.le, max_eq_right (h1.trans h2).le]
    · rw [if_neg h2]
      show p Sign.zero = _
      rw [max_eq_left (not_lt.mp h2), max_eq_right h1.le]
  · rw [if_neg h1]
    by_cases h2 : p Sign.minus > p Sign.plus
    · rw [if_pos h2]
      show p Sign.minus = _
      rw [max_eq_right ((not_lt.mp h1).trans h2.le), max_eq_right h2.le]
    · rw [if_neg h2]
      show p Sign.plus = _
      rw [max_eq_left (max_le (not_lt.mp h1) (not_lt.mp h2))]

lemma argmaxSign_fst (p : Sign → ℝ) :
    ((argmaxSign p).1 = Sign.plus ↔
        p Sign.plus = max (p Sign.plus) (max (p Sign.zero) (p Sign.minus))) ∧
    ((argmaxSign p).1 = Sign.zero ↔
        (p Sign.plus ≠ max (p Sign.plus) (max (p Sign.zero) (p Sign.minus)) ∧
          p Sign.zero = max (p Sign.plus) (max (p Sign.zero) (p Sign.minus)))) ∧
    ((argmaxSign p).1 = Sign.minus ↔
        (p Sign.plus ≠ max (p Sign.plus) (max (p Sign.zero) (p Sign.minus)) ∧
          p Sign.zero ≠ max (p Sign.plus) (max (p Sign.zero) (p Sign.minus)) ∧
          p Sign.minus = max (p Sign.plus) (max (p Sign.zero) (p Sign.minus)))) := by
  by_cases h1 : p Sign.zero > p Sign.plus
  · by_cases h2 : p Sign.minus > p Sign.zero
    · have hM : max (p Sign.plus) (max (p Sign.zero) (p Sign.minus)) = p Sign.minus := by
        rw [max_eq_right h2.le, max_eq_right (h1.trans h2).le]
      have ha : argmaxSign p = (Sign.minus, p Sign.minus) := by
        unfold argmaxSign; rw [if_pos h1, if_pos h2]
      rw [ha, hM]
      refine ⟨?_, ?_, ?_⟩
      · exact iff_of_false (by simp) (ne_of_lt (h1.trans h2))
      · exact iff_of_false (by simp) (fun hc => (ne_of_lt h2) hc.2)
      · exact iff_of_true rfl ⟨ne_of_lt (h1.trans h2), ne_of_lt h2, rfl⟩
    · have hM : max (p Sign.plus) (max (p Sign.zero) (p Sign.minus)) = p Sign.zero := by
        rw [max_eq_left (not_lt.mp h2), max_eq_right h1.le]
      have ha : argmaxSign p = (Sign.zero, p Sign.zero) := by
        unfold argmaxSign; rw [if_pos h1, if_neg h2]
      rw [ha, hM]
      refine ⟨?_, ?_, ?_⟩
      · exact iff_of_false (by simp) (ne_of_lt h1)
      · exact iff_of_true rfl ⟨ne_of_lt h1, rfl⟩
      · exact iff_of_false (by simp) (fun hc => hc.2.1 rfl)
  · by_cases h2 : p Sign.minus > p Sign.plus
    · have hM : max (p Sign.plus) (max (p Sign.zero) (p Sign.minus)) = p Sign.minus := by
        rw [max_eq_right ((not_lt.mp h1).trans h2.le), max_eq_right h2.le]
      have ha : argmaxSign p = (Sign.minus, p Sign.minus) := by
        unfold argmaxSign; rw [if_neg h1, if_pos h2]
      rw [ha, hM]
      refine ⟨?_, ?_, ?_⟩
      · exact iff_of_false (by simp) (ne_of_lt h2)
      · exact iff_of_false (by simp)
          (fun hc => (ne_of_lt (lt_of_le_of_lt (not_lt.mp h1) h2)) hc.2)
      · exact iff_of_true rfl
          ⟨ne_of_lt h2, ne_of_lt (lt_of_le_of_lt (not_lt.mp h1) h2), rfl⟩
    · have hM : max (p Sign.plus) (max (p Sign.zero) (p Sign.minus)) = p Sign.plus := by
        rw [max_eq_left (max_le (not_lt.mp h1) (not_lt.mp h2))]
      have ha : argmaxSign p = (Sign.plus, p Sign.plus) := by
        unfold argmaxSign; rw [if_neg h1, if_neg h2]
      rw [ha, hM]
      refine ⟨?_, ?_, ?_⟩
      · exact iff_of_true rfl rfl
      · exact iff_of_false (by simp) (fun hc => hc.1 rfl)
      · exact iff_of_false (by simp) (fun hc => hc.1 rfl)

/-- C2: the stop flag of `should_stop(tau, kappa_min)` is true exactly when
every one of the three axes simultaneously has top posterior probability at
least `tau` and total pseudo-count mass at least `kappa_min`; equivalently,
a single axis failing either condition forces a false flag. -/
theorem C2_should_stop_iff (st : BeliefState) (tau kappa_min : ℝ) :
    (st.should_stop tau kappa_min).1 = true ↔
      ∀ A : Axis, tau ≤ st.topPost A ∧ kappa_min ≤ st.alphaSum A := by
  have hsnd : ∀ A, (st.get_decision).2 A = st.topPost A :=
    fun A => argmaxSign_snd (st.get_posterior A)
  unfold BeliefState.should_stop
  simp only [axes, List.foldl, hsnd, ge_iff_le, forall_axis]
  by_cases hX : tau ≤ st.topPost Axis.X ∧ kappa_min ≤ st.alphaSum Axis.X <;>
    by_cases hY : tau ≤ st.topPost Axis.Y ∧ kappa_min ≤ st.alphaSum Axis.Y <;>
    by_cases hZ : tau ≤ st.topPost Axis.Z ∧ kappa_min ≤ st.alphaSum Axis.Z <;>
    simp [hX, hY, hZ]

/-! ## Analysis of the Wilson confidence -/

lemma wilsonLB_eq (n p : ℝ) : wilsonLB n p =
    (p + 1.96 * 1.96 / (2 * n) -
        1.96 * Real.sqrt (p * (1 - p) / n + 1.96 * 1.96 / (4 * n * n))) /
      (1 + 1.96 * 1.96 / n) := rfl

lemma sqrt_term_lower (n p : ℝ) (hn : 0 < n) (hp0 : 0 ≤ p) (hp1 : p ≤ 1) :
    (1.96 : ℝ) / (2 * n) ≤ Real.sqrt (p * (1 - p) / n + 1.96 * 1.96 / (4 * n * n)) := by
  have h1 : ((1.96 : ℝ) / (2 * n)) ^ 2 = 1.96 * 1.96 / (4 * n * n) := by
    field_simp
    ring
  have h2 : (0 : ℝ) ≤ p * (1 - p) / n :=
    div_nonneg (mul_nonneg hp0 (by linarith)) hn.le
  calc (1.96 : ℝ) / (2 * n) = Real.sqrt (((1.96 : ℝ) / (2 * n)) ^ 2) :=
        (Real.sqrt_sq (by positivity)).symm
    _ ≤ Real.sqrt (p * (1 - p) / n + 1.96 * 1.96 / (4 * n * n)) := by
        apply Real.sqrt_le_sqrt
        rw [h1]
        exact le_add_of_nonneg_left h2

lemma sqrt_term_nonneg (n p : ℝ) (hn : 0 < n) (hp0 : 0 ≤ p) (hp1 : p ≤ 1) :
    (0 : ℝ) ≤ p * (1 - p) / n + 1.96 * 1.96 / (4 * n * n) := by
  have h2 : (0 : ℝ) ≤ p * (1 - p) / n :=
    div_nonneg (mul_nonneg hp0 (by linarith)) hn.le
  have h3 : (0 : ℝ) ≤ 1.96 * 1.96 / (4 * n * n) := by positivity
  linarith

lemma wilsonLB_le_one (n p : ℝ) (hn : 1 ≤ n) (hp0 : 0 ≤ p) (hp1 : p ≤ 1) :
    wilsonLB n p ≤ 1 := by
  have hnpos : (0 : ℝ) < n := lt_of_lt_of_le one_pos hn
  rw [wilsonLB_eq, div_le_one (by positivity)]
  have hs := sqrt_term_lower n p hnpos hp0 hp1
  have hmul : (1.96 : ℝ) * (1.96 / (2 * n)) ≤
      1.96 * Real.sqrt (p * (1 - p) / n + 1.96 * 1.96 / (4 * n * n)) :=
    mul_le_mul_of_nonneg_left hs (by norm_num)
  have heq : (1.96 : ℝ) * (1.96 / (2 * n)) = 1.96 * 1.96 / (2 * n) := by ring
  have hz : (0 : ℝ) ≤ 1.96 * 1.96 / n := by positivity
  linarith

lemma wilsonLB_mono (n p q : ℝ) (hn : 1 ≤ n) (hp0 : 0 ≤ p) (hpq : p ≤ q) (hq1 : q ≤ 1) :
    wilsonLB n p ≤ wilsonLB n q := by
  have hnpos : (0 : ℝ) < n := lt_of_lt_of_le one_pos hn
  have hp1 : p ≤ 1 := hpq.trans hq1
  have hq0 : 0 ≤ q := hp0.trans hpq
  rw [wilsonLB_eq, wilsonLB_eq]
  rw [div_le_div_right (by positivity)]
  set a := Real.sqrt (p * (1 - p) / n + 1.96 * 1.96 / (4 * n * n)) with hadef
  set b := Real.sqrt (q * (1 - q) / n + 1.96 * 1.96 / (4 * n * n)) with hbdef
  have ha0 : (1.96 : ℝ) / (2 * n) ≤ a := sqrt_term_lower n p hnpos hp0 hp1
  have hb0 : (1.96 : ℝ) / (2 * n) ≤ b := sqrt_term_lower n q hnpos hq0 hq1
  have hasq : a ^ 2 = p * (1 - p) / n + 1.96 * 1.96 / (4 * n * n) :=
    Real.sq_sqrt (sqrt_term_nonneg n p hnpos hp0 hp1)
  have hbsq : b ^ 2 = q * (1 - q) / n + 1.96 * 1.96 / (4 * n * n) :=
    Real.sq_sqrt (sqrt_term_nonneg n q hnpos hq0 hq1)
  suffices h : 1.96 * b - 1.96 * a ≤ q - p by linarith
  rcases le_or_lt b a with hba | hab
  · have : (1.96 : ℝ) * b ≤ 1.96 * a := mul_le_mul_of_nonneg_left hba (by norm_num)
    linarith
  · have hhalf : (0 : ℝ) < 1.96 / (2 * n) := by positivity
    have hapos : 0 < a := lt_of_lt_of_le hhalf ha0
    have hbpos : 0 < b := lt_of_lt_of_le hhalf hb0
    have habpos : 0 < a + b := by linarith
    have hsumZ : (1.96 : ℝ) / (2 * n) + 1.96 / (2 * n) = 1.96 / n := by
      field_simp
      ring
    have hsum : (1.96 : ℝ) / n ≤ a + b := by linarith
    have hdiff : b ^ 2 - a ^ 2 = (q - p) * (1 - p - q) / n := by
      rw [hasq, hbsq]
      field_simp
      ring
    have hk : (1.96 * b - 1.96 * a) * (a + b) = 1.96 * ((q - p) * (1 - p - q) / n) := by
      have : (1.96 * b - 1.96 * a) * (a + b) = 1.96 * (b ^ 2 - a ^ 2) := by ring
      rw [this, hdiff]
    have h2 : (1.96 : ℝ) * ((q - p) * (1 - p - q) / n) ≤ (q - p) * (1.96 / n) := by
      have e1 : (1.96 : ℝ) * ((q - p) * (1 - p - q) / n) =
          (1.96 * ((q - p) * (1 - p - q))) / n := by ring
      have e2 : (q - p) * ((1.96 : ℝ) / n) = ((q - p) * 1.96) / n := by ring
      rw [e1, e2, div_le_div_right hnpos]
      nlinarith [mul_nonneg (sub_nonneg.mpr hpq) (add_nonneg hp0 hq0)]
    have h3 : (q - p) * ((1.96 : ℝ) / n) ≤ (q - p) * (a + b) :=
      mul_le_mul_of_nonneg_left hsum (sub_nonneg.mpr hpq)
    have h4 : (1.96 * b - 1.96 * a) * (a + b) ≤ (q - p) * (a + b) := by
      rw [hk]
      exact h2.trans h3
    exact (mul_le_mul_right habpos).mp h4

lemma wilson_neff_snd (gamma : ℝ) (t : Tally) (h : t.total ≠ 0) :
    (wilson_neff gamma t).2 =
      (max 0 ((max (wilsonLB (t.total : ℝ) ((t.kmax : ℝ) / (t.total : ℝ))) (1 / 3) - 1 / 3) /
        (2 / 3))) ^ gamma := by
  unfold wilson_neff
  rw [if_neg h]

lemma entropy_neff_snd (lam gamma : ℝ) (t : Tally) (h : t.total ≠ 0) :
    (entropy_neff lam gamma t).2 =
      (1 - (-(((t Sign.plus : ℝ) + lam) / ((t.total : ℝ) + 3 * lam) *
            Real.log (((t Sign.plus : ℝ) + lam) / ((t.total : ℝ) + 3 * lam)) +
          ((t Sign.zero : ℝ) + lam) / ((t.total : ℝ) + 3 * lam) *
            Real.log (((t Sign.zero : ℝ) + lam) / ((t.total : ℝ) + 3 * lam)) +
          ((t Sign.minus : ℝ) + lam) / ((t.total : ℝ) + 3 * lam) *
            Real.log (((t Sign.minus : ℝ) + lam) / ((t.total : ℝ) + 3 * lam)))) /
        Real.log 3) ^ gamma := by
  unfold entropy_neff
  rw [if_neg h]

lemma log_term_bound (x : ℝ) (hx : 0 < x) :
    -(x * Real.log x) ≤ 1 / 3 - x + x * Real.log 3 := by
  have h1 := Real.log_le_sub_one_of_pos (show (0 : ℝ) < (3 * x)⁻¹ by positivity)
  rw [Real.log_inv, Real.log_mul (by norm_num) hx.ne'] at h1
  have h2 := mul_le_mul_of_nonneg_left h1 hx.le
  have h4 : x * (-(Real.log 3 + Real.log x)) = -(x * Real.log 3) - x * Real.log x := by ring
  have h5 : x * ((3 * x)⁻¹ - 1) = x * (3 * x)⁻¹ - x := by ring
  rw [h4, h5] at h2
  have h3 : x * (3 * x)⁻¹ = 1 / 3 := by
    field_simp
    ring
  linarith

lemma entropy_conf_bounds (lam : ℝ) (hlam : 0 < lam) (t : Tally) (h : t.total ≠ 0) :
    0 ≤ (entropy_neff lam 1 t).2 ∧ (entropy_neff lam 1 t).2 ≤ 1 := by
  rw [entropy_neff_snd lam 1 t h, Real.rpow_one]
  have hn1 : (1 : ℝ) ≤ (t.total : ℝ) := by
    exact_mod_cast Nat.one_le_iff_ne_zero.mpr h
  have hden : (0 : ℝ) < (t.total : ℝ) + 3 * lam := by linarith
  set q1 : ℝ := ((t Sign.plus : ℝ) + lam) / ((t.total : ℝ) + 3 * lam) with hq1
  set q2 : ℝ := ((t Sign.zero : ℝ) + lam) / ((t.total : ℝ) + 3 * lam) with hq2
  set q3 : ℝ := ((t Sign.minus : ℝ) + lam) / ((t.total : ℝ) + 3 * lam) with hq3
  have hpos : 0 < q1 ∧ 0 < q2 ∧ 0 < q3 := by
    refine ⟨?_, ?_, ?_⟩ <;>
      exact div_pos (add_pos_of_nonneg_of_pos (Nat.cast_nonneg _) hlam) hden
  have hlt : ∀ s : Sign, ((t s : ℝ) + lam) / ((t.total : ℝ) + 3 * lam) < 1 := by
    intro s
    rw [div_lt_one hden]
    have hc : (t s : ℝ) ≤ (t.total : ℝ) := by exact_mod_cast tally_le_total t s
    linarith
  have hlt1 : q1 < 1 := hlt Sign.plus
  have hlt2 : q2 < 1 := hlt Sign.zero
  have hlt3 : q3 < 1 := hlt Sign.minus
  have htot : ((t.total : ℕ) : ℝ) = (t Sign.plus : ℝ) + (t Sign.zero : ℝ) + (t Sign.minus : ℝ) := by
    unfold Tally.total
    push_cast
    ring
  have hsum : q1 + q2 + q3 = 1 := by
    rw [hq1, hq2, hq3, div_add_div_same, div_add_div_same, div_eq_one_iff_eq hden.ne']
    rw [htot]
    ring
  have hlog3 : (0 : ℝ) < Real.log 3 := Real.log_pos (by norm_num)
  have hb1 := log_term_bound q1 hpos.1
  have hb2 := log_term_bound q2 hpos.2.1
  have hb3 := log_term_bound q3 hpos.2.2
  have hmul : q1 * Real.log 3 + q2 * Real.log 3 + q3 * Real.log 3 = Real.log 3 := by
    rw [← add_mul, ← add_mul, hsum, one_mul]
  have hHmax : -(q1 * Real.log q1 + q2 * Real.log q2 + q3 * Real.log q3) ≤ Real.log 3 := by
    linarith
  have hterm : ∀ s : Sign, ∀ x : ℝ, 0 < x → x < 1 → x * Real.log x ≤ 0 := by
    intro _ x hx hx1
    exact mul_nonpos_of_nonneg_of_nonpos hx.le (Real.log_nonpos hx.le hx1.le)
  have hH0 : 0 ≤ -(q1 * Real.log q1 + q2 * Real.log q2 + q3 * Real.log q3) := by
    have e1 := hterm Sign.plus q1 hpos.1 hlt1
    have e2 := hterm Sign.zero q2 hpos.2.1 hlt2
    have e3 := hterm Sign.minus q3 hpos.2.2 hlt3
    linarith
  constructor
  · have := (div_le_one hlog3).mpr hHmax
    linarith
  · have := div_nonneg hH0 hlog3.le
    linarith

/-- C6: for every tally of natural-number counts, the confidence returned by
both `_wilson_neff` and `_entropy_neff` (with `gamma = 1` and prior weight
`lam > 0`) lies in `[0, 1]`, and a zero-total tally yields effective sample
size 0 and confidence 0 for both algorithms. -/
theorem C6_confidence_in_unit_interval (t : Tally) (lam : ℝ) (hlam : 0 < lam) :
    (0 ≤ (wilson_neff 1 t).2 ∧ (wilson_neff 1 t).2 ≤ 1) ∧
    (0 ≤ (entropy_neff lam 1 t).2 ∧ (entropy_neff lam 1 t).2 ≤ 1) ∧
    (t.total = 0 → wilson_neff 1 t = (0, 0) ∧ entropy_neff lam 1 t = (0, 0)) := by
  refine ⟨?_, ?_, ?_⟩
  · by_cases h : t.total = 0
    · have hw : wilson_neff 1 t = (0, 0) := by unfold wilson_neff; rw [if_pos h]
      rw [hw]
      norm_num
    · rw [wilson_neff_snd 1 t h, Real.rpow_one]
      have hn1 : (1 : ℝ) ≤ (t.total : ℝ) := by
        exact_mod_cast Nat.one_le_iff_ne_zero.mpr h
      have hnpos : (0 : ℝ) < (t.total : ℝ) := by linarith
      have hp0 : (0 : ℝ) ≤ (t.kmax : ℝ) / (t.total : ℝ) := by positivity
      have hp1 : (t.kmax : ℝ) / (t.total : ℝ) ≤ 1 := by
        rw [div_le_one hnpos]
        exact_mod_cast kmax_le_total t
      have hlb1 := wilsonLB_le_one (t.total : ℝ) ((t.kmax : ℝ) / (t.total : ℝ)) hn1 hp0 hp1
      constructor
      · exact le_max_left 0 _
      · apply max_le (by norm_num)
        rw [div_le_one (by norm_num)]
        have hmx : max (wilsonLB (t.total : ℝ) ((t.kmax : ℝ) / (t.total : ℝ))) (1 / 3) ≤ 1 :=
          max_le hlb1 (by norm_num)
        linarith
  · by_cases h : t.total = 0
    · have hw : entropy_neff lam 1 t = (0, 0) := by unfold entropy_neff; rw [if_pos h]
      rw [hw]
      norm_num
    · exact entropy_conf_bounds lam hlam t h
  · intro h
    constructor
    · unfold wilson_neff; rw [if_pos h]
    · unfold entropy_neff; rw [if_pos h]

theorem C6_confidence_in_unit_interval_witness :
    (0 ≤ (wilson_neff 1 (fun _ => 1)).2 ∧ (wilson_neff 1 (fun _ => 1)).2 ≤ 1) ∧
    (0 ≤ (entropy_neff 1 1 (fun _ => 1)).2 ∧ (entropy_neff 1 1 (fun _ => 1)).2 ≤ 1) ∧
    (Tally.total (fun _ => 1) = 0 →
      wilson_neff 1 (fun _ => 1) = (0, 0) ∧ entropy_neff 1 1 (fun _ => 1) = (0, 0)) :=
  C6_confidence_in_unit_interval (fun _ => 1) 1 (by norm_num)

/-- C7: with the total count `n ≥ 1` held fixed, increasing the majority
count (any redistribution of the remainder among the other signs that does
not decrease `kmax`) never decreases the Wilson-based confidence, for any
sharpening exponent `gamma ≥ 0`. -/
theorem C7_wilson_confidence_monotone (gamma : ℝ) (hg : 0 ≤ gamma) (n : ℕ) (t1 t2 : Tally)
    (hn : 1 ≤ n) (h1 : t1.total = n) (h2 : t2.total = n) (hk : t1.kmax ≤ t2.kmax) :
    (wilson_neff gamma t1).2 ≤ (wilson_neff gamma t2).2 := by
  have hne1 : t1.total ≠ 0 := by omega
  have hne2 : t2.total ≠ 0 := by omega
  rw [wilson_neff_snd gamma t1 hne1, wilson_neff_snd gamma t2 hne2, h1, h2]
  have hnR : (1 : ℝ) ≤ (n : ℝ) := by exact_mod_cast hn
  have hnpos : (0 : ℝ) < (n : ℝ) := by linarith
  have hp0 : (0 : ℝ) ≤ (t1.kmax : ℝ) / (n : ℝ) := by positivity
  have hpq : (t1.kmax : ℝ) / (n : ℝ) ≤ (t2.kmax : ℝ) / (n : ℝ) := by
    rw [div_le_div_right hnpos]
    exact_mod_cast hk
  have hq1 : (t2.kmax : ℝ) / (n : ℝ) ≤ 1 := by
    rw [div_le_one hnpos]
    exact_mod_cast h2 ▸ kmax_le_total t2
  have hlb := wilsonLB_mono (n : ℝ) ((t1.kmax : ℝ) / (n : ℝ)) ((t2.kmax : ℝ) / (n : ℝ))
    hnR hp0 hpq hq1
  refine Real.rpow_le_rpow (le_max_left 0 _) (max_le_max le_rfl ?_) hg
  rw [div_le_div_right (by norm_num : (0 : ℝ) < 2 / 3)]
  exact sub_le_sub_right (max_le_max hlb le_rfl) _

theorem C7_wilson_confidence_monotone_witness :
    (wilson_neff 1 (fun _ => 1)).2 ≤
      (wilson_neff 1 (fun s => if s = Sign.plus then 3 else 0)).2 :=
  C7_wilson_confidence_monotone 1 (by norm_num) 3 (fun _ => 1)
    (fun s => if s = Sign.plus then 3 else 0) (by norm_num) (by decide) (by decide) (by decide)

/-! ## Iteration behaviour of the control loop -/

lemma runLoop_stop (o : Oracles) (tau kappa : ℝ) (fuel : ℕ) (st : AgentState) (plan : Plan)
    (hdec : parse_answer_json o.jloads (o.planner st.steps) = Except.ok plan)
    (hact : plan.action = ("STOP".data)) :
    runLoop o tau kappa (fuel + 1) st = Except.ok st := by
  conv_lhs => unfold runLoop
  simp only [hdec]
  rw [if_pos hact]

lemma runLoop_capture (o : Oracles) (tau kappa : ℝ) (fuel : ℕ) (st : AgentState) (plan : Plan)
    (az el : ℝ)
    (hdec : parse_answer_json o.jloads (o.planner st.steps) = Except.ok plan)
    (hact : plan.action = ("CAPTURE".data))
    (hview : plan.view = some (az, el)) :
    runLoop o tau kappa (fuel + 1) st =
      (if ((captureStep o az el plan.axis st).belief.should_stop tau kappa).1 = true then
        Except.ok (captureStep o az el plan.axis st)
      else runLoop o tau kappa fuel (captureStep o az el plan.axis st)) := by
  conv_lhs => unfold runLoop
  simp only [hdec]
  rw [if_neg (show ¬plan.action = ("STOP".data) by rw [hact]; decide)]
  simp only [hview]

lemma runLoop_capture_once (o : Oracles) (tau kappa : ℝ) (st : AgentState) (plan : Plan)
    (az el : ℝ)
    (hdec : parse_answer_json o.jloads (o.planner st.steps) = Except.ok plan)
    (hact : plan.action = ("CAPTURE".data))
    (hview : plan.view = some (az, el)) :
    runLoop o tau kappa 1 st = Except.ok (captureStep o az el plan.axis st) := by
  have h := runLoop_capture o tau kappa 0 st plan az el hdec hact hview
  rw [h]
  by_cases hs : ((captureStep o az el plan.axis st).belief.should_stop tau kappa).1 = true
  · rw [if_pos hs]
  · rw [if_neg hs]
    rfl

/-- C1 counterexample: concrete oracles whose every planner response decodes
to a CAPTURE action, yet a run with `max_steps = 1` performs zero (not one)
VOTE/UPDATE cycles: `steps` starts at 1 and the loop guard `steps < max_steps`
is already false, so the returned history is empty. -/
theorem C1_counterexample :
    (Agent.run oCap (9 / 10) 10 1).toOption.map (fun r => r.2.2.history.length) = some 0 ∧
      (0 : ℕ) ≠ 1 := by
  constructor
  · have h0 : runLoop oCap (9 / 10) 10 (1 - 1) AgentState.init =
        Except.ok AgentState.init := rfl
    unfold Agent.run
    rw [h0]
    rfl
  · decide

/-- C1 (amended): because `Agent.__init__` sets `steps = 1` and the loop runs
while `steps < max_steps`, a run with `max_steps = 1` performs zero
VOTE/UPDATE cycles (it returns the untouched initial state); with a planner
whose every response decodes to a CAPTURE action, it is `max_steps = 2` that
forces exactly one VOTE/UPDATE cycle — one belief update and one history
append — before termination, regardless of the stop condition. -/
theorem C1_one_cycle_amended (o : Oracles) (pl : ℕ → Plan) (v : ℕ → ℝ × ℝ)
    (hdec : ∀ k, parse_answer_json o.jloads (o.planner k) = Except.ok (pl k))
    (hact : ∀ k, (pl k).action = ("CAPTURE".data))
    (hview : ∀ k, (pl k).view = some (v k))
    (tau kappa : ℝ) :
    (Agent.run o tau kappa 1).toOption.map (fun r => r.2.2.history.length) = some 0 ∧
    runLoop o tau kappa 1 AgentState.init =
      Except.ok (captureStep o (v 1).1 (v 1).2 (pl 1).axis AgentState.init) ∧
    (Agent.run o tau kappa 2).toOption.map (fun r => r.2.2.history.length) = some 1 ∧
    (Agent.run o tau kappa 2).toOption.map (fun r => r.2.2.belief) =
      some ((AgentState.init.belief.update
        (voteLoop o (v 1).1 (v 1).2 (pl 1).axis (o.offsets 1 ++ [(0, 0)])
          (fun _ _ => 0) none).1).1) := by
  have hone : runLoop o tau kappa 1 AgentState.init =
      Except.ok (captureStep o (v 1).1 (v 1).2 (pl 1).axis AgentState.init) := by
    have hv : (pl 1).view = some ((v 1).1, (v 1).2) := by rw [hview 1]
    exact runLoop_capture_once o tau kappa AgentState.init (pl 1) (v 1).1 (v 1).2
      (hdec 1) (hact 1) hv
  have htwo : runLoop o tau kappa (2 - 1) AgentState.init =
      Except.ok (captureStep o (v 1).1 (v 1).2 (pl 1).axis AgentState.init) := hone
  refine ⟨?_, hone, ?_, ?_⟩
  · have h0 : runLoop o tau kappa (1 - 1) AgentState.init =
        Except.ok AgentState.init := rfl
    unfold Agent.run
    rw [h0]
    rfl
  · unfold Agent.run
    rw [htwo]
    rfl
  · unfold Agent.run
    rw [htwo]
    rfl

theorem C1_one_cycle_amended_witness :
    runLoop oCap (9 / 10) 10 1 AgentState.init =
      Except.ok (captureStep oCap 10 20 ("X".data) AgentState.init) :=
  (C1_one_cycle_amended oCap (fun _ => planC) (fun _ => ((10 : ℝ), (20 : ℝ)))
    (fun _ => rfl) (fun _ => rfl) (fun _ => rfl) (9 / 10) 10).2.1

/-- C10: `get_decision` breaks posterior ties deterministically by the fixed
sign order `'+', '0', '-'` — the returned sign is the first one in that
order attaining the maximal posterior of its axis; consequently a run whose
planner says STOP before any update (so the prior is still uniform) returns
the final answer `<answer>(+X, +Y, +Z)</answer>` with top probability `1/3`
on every axis. -/
theorem C10_decision_tiebreak :
    (∀ (st : BeliefState) (A : Axis),
      ((st.get_decision).1 A = Sign.plus ↔
        st.get_posterior A Sign.plus = st.topPost A) ∧
      ((st.get_decision).1 A = Sign.zero ↔
        (st.get_posterior A Sign.plus ≠ st.topPost A ∧
          st.get_posterior A Sign.zero = st.topPost A)) ∧
      ((st.get_decision).1 A = Sign.minus ↔
        (st.get_posterior A Sign.plus ≠ st.topPost A ∧
          st.get_posterior A Sign.zero ≠ st.topPost A ∧
          st.get_posterior A Sign.minus = st.topPost A))) ∧
    (∀ (o : Oracles) (pl : Plan),
      parse_answer_json o.jloads (o.planner 1) = Except.ok pl →
      pl.action = ("STOP".data) →
      ∀ (tau kappa : ℝ) (ms : ℕ),
        Agent.run o tau kappa ms =
          Except.ok (("<answer>(+X, +Y, +Z)</answer>".data), fun _ => (1 / 3 : ℝ),
            AgentState.init)) := by
  constructor
  · intro st A
    exact argmaxSign_fst (st.get_posterior A)
  · intro o pl hdec hact tau kappa ms
    have hrun : runLoop o tau kappa (ms - 1) AgentState.init = Except.ok AgentState.init := by
      cases hms : ms - 1 with
      | zero => rfl
      | succ k => exact runLoop_stop o tau kappa k AgentState.init pl hdec hact
    have hpost : AgentState.init.belief.get_posterior = fun _ _ => (1 / 3 : ℝ) := by
      funext A s
      show (1 : ℝ) / (1 + 1 + 1) = 1 / 3
      norm_num
    have ha : argmaxSign (fun _ => (1 / 3 : ℝ)) = (Sign.plus, 1 / 3) := by
      simp [argmaxSign]
    have hdec1 : AgentState.init.belief.get_decision =
        (fun _ => Sign.plus, fun _ => (1 / 3 : ℝ)) := by
      unfold BeliefState.get_decision
      simp only [hpost, ha]
    unfold Agent.run
    rw [hrun]
    show Except.ok (formatAnswer (AgentState.init.belief.get_decision).1,
      (AgentState.init.belief.get_decision).2, AgentState.init) = _
    rw [hdec1]
    rfl

theorem C10_decision_tiebreak_witness :
    Agent.run oStop (9 / 10) 10 5 =
      Except.ok (("<answer>(+X, +Y, +Z)</answer>".data), fun _ => (1 / 3 : ℝ),
        AgentState.init) :=
  C10_decision_tiebreak.2 oStop planS rfl rfl (9 / 10) 10 5

end MultiView
